import Mathlib

/-!
Shallow embedding of the declaration-resolution engine (`gosource.DeclPosition`
and its collaborators) together with proofs of the specified properties.

The entry point `DeclPosition` is translated directly from the source.  The
collaborators whose bodies are not part of the supplied source files
(`Info.ParseFile`, `FSet.File`, `Info.SafeOffsetPos`, `Info.PosNode`,
`Resolver.ResolveDecl`, `Resolver.IdAssignStmtRhs`) are modelled from the
specification, each marked as such in its doc comment.

Positions are byte offsets (`Nat`); an out-of-range caller offset is a Go
`int`, modelled as `Int`.  Errors are the literal message strings of the
source's `fmt.Errorf` calls.
-/

namespace GoSource

/-- An identifier node: a name plus its own byte span. -/
structure Ident where
  name : String
  pos : Nat
  ende : Nat
  deriving DecidableEq, Repr

/-- Syntax nodes relevant to declaration resolution, mirroring the node kinds
that `DeclPosition` dispatches on (`*ast.Ident`, `*ast.FuncDecl`,
`*ast.TypeSpec`, `*ast.AssignStmt`, `*ast.Field`, `*ast.ValueSpec`), plus a
catch-all `other` kind for every remaining node kind.  Each node carries its
byte span.  For a short assignment each left-hand entry carries, besides the
identifier, the resolver's classification of that entry as a newly-declared
name (`true`) or a plain reassignment (`false`); this flag is modelled data,
since the scope machinery that derives it is specified but not supplied. -/
inductive Node where
  | ident (id : Ident)
  | funcDecl (name : Ident) (pos ende : Nat)
  | typeSpec (name : Ident) (pos ende : Nat)
  | assignStmt (lhs : List (Ident × Bool)) (pos ende : Nat)
  | field (names : List Ident) (pos ende : Nat)
  | valueSpec (names : List Ident) (pos ende : Nat)
  | other (pos ende : Nat)
  deriving DecidableEq, Repr

/-- Start offset of a node (`node.Pos()`). -/
def Node.pos : Node → Nat
  | .ident i => i.pos
  | .funcDecl _ p _ => p
  | .typeSpec _ p _ => p
  | .assignStmt _ p _ => p
  | .field _ p _ => p
  | .valueSpec _ p _ => p
  | .other p _ => p

/-- End offset of a node (`node.End()`). -/
def Node.ende : Node → Nat
  | .ident i => i.ende
  | .funcDecl _ _ e => e
  | .typeSpec _ _ e => e
  | .assignStmt _ _ e => e
  | .field _ _ e => e
  | .valueSpec _ _ e => e
  | .other _ e => e

/-- A successfully parsed file: its size in bytes, its leaf nodes (tokens) in
source order — nonempty, since a parseable file contains at least its package
clause, modelled by the distinguished first token `tok0` — and the resolver's
outcome for an identifier occurring in it.  `ResolveDecl` is modelled from the
spec as an abstract outcome: the Scope Builder and Resolver bodies are
specified but not supplied, so every theorem below holds for every resolver
outcome. -/
structure File where
  size : Nat
  tok0 : Node
  toks : List Node
  ResolveDecl : Ident → Option Node

/-- All leaf nodes of the file, in source order. -/
def File.allToks (f : File) : List Node := f.tok0 :: f.toks

/-- Modelled from the spec: parsing either fails (`ParseError`) or yields a
tree; the supplied content is classified accordingly.  Represents the missing
`Info.ParseFile`. -/
inductive Src where
  | malformed
  | parsed (f : File)

/-- Modelled from the spec: `Info.ParseFile` returns the parsed file, or nil
when "the content cannot be parsed". -/
def ParseFile (_filename : String) (src : Src) : Option File :=
  match src with
  | .malformed => none
  | .parsed f => some f

/-- Modelled from the spec: `info.FSet.File(astFile.Package)` — the positions
of a successfully parsed file are registered in the file set, so the lookup of
the token file succeeds. -/
def FSetFile (f : File) : Option File := some f

/-- Modelled from the spec: `clampOffset(globalOffset)` "maps an out-of-range
offset (negative, or past end-of-file) to the nearest valid boundary offset
rather than failing".  Represents the missing `Info.SafeOffsetPos`. -/
def File.SafeOffsetPos (f : File) (index : Int) : Nat :=
  if index < 0 then 0 else min index.toNat f.size

/-- Modelled from the spec: `nodeAt` returns the most specific node whose
span contains the offset; a position between two tokens chooses "the node
immediately following the point, consistent with left-to-right reading
order", and an offset past every token clamps to the last token.  Represents
the missing `Info.PosNode`. -/
def File.PosNode (f : File) (o : Nat) : Option Node :=
  match (f.tok0 :: f.toks).find? (fun n => decide (n.pos ≤ o) && decide (o < n.ende)) with
  | some n => some n
  | none =>
    match (f.tok0 :: f.toks).find? (fun n => decide (o ≤ n.pos)) with
    | some n => some n
    | none => some ((f.tok0 :: f.toks).getLast (List.cons_ne_nil _ _))

/-- Index of the first left-hand entry of a short assignment that is a
newly-declared name whose text matches `id`, if any. -/
def IdAssignIdx (id : Ident) : List (Ident × Bool) → Option Nat
  | [] => none
  | q :: rest =>
    if q.2 && (q.1.name == id.name) then some 0
    else (IdAssignIdx id rest).map (· + 1)

/-- Modelled from the spec: `Resolver.IdAssignStmtRhs` yields the position of
"the left-hand identifier at the position matching `name` among the
newly-declared names", or a negative index when there is none. -/
def IdAssignStmtRhs (id : Ident) (lhs : List (Ident × Bool)) : Int :=
  match IdAssignIdx id lhs with
  | some k => (k : Int)
  | none => -1

/-- The span-refinement switch of `DeclPosition` (source lines 52–79),
translated case by case: a function or type declaration is narrowed to its
name, a short assignment to the left-hand entry at the index computed by
`IdAssignStmtRhs` (indexed only when non-negative), a field or value spec to
the first identifier of its name list whose text matches, and every other
node kind is returned unrefined. -/
def refineNode (id : Ident) (node : Node) : Node :=
  match node with
  | .funcDecl name _ _ => .ident name
  | .typeSpec name _ _ => .ident name
  | .assignStmt lhs p e =>
    let lhsi := IdAssignStmtRhs id lhs
    if 0 ≤ lhsi then
      match lhs.get? lhsi.toNat with
      | some q => .ident q.1
      | none => .assignStmt lhs p e
    else .assignStmt lhs p e
  | .field names p e =>
    match names.find? (fun id2 => id2.name == id.name) with
    | some id2 => .ident id2
    | none => .field names p e
  | .valueSpec names p e =>
    match names.find? (fun id2 => id2.name == id.name) with
    | some id2 => .ident id2
    | none => .valueSpec names p e
  | n => n

/-- The entry point, translated from the source: parse the file, fetch the
token file, locate the node at the clamped offset, require an identifier,
resolve its declaration, refine the declaration node, and return the refined
node's start and end positions.  Each failure returns the literal message of
the corresponding `fmt.Errorf` in the source. -/
def DeclPosition (filename : String) (src : Src) (index : Int) :
    Option Nat × Option Nat × Option String :=
  match ParseFile filename src with
  | none => (none, none, some "unable to parse file")
  | some astFile =>
    match FSetFile astFile with
    | none => (none, none, some "unable to get token file")
    | some tokenFile =>
      match tokenFile.PosNode (tokenFile.SafeOffsetPos index) with
      | none => (none, none, some "index node not found")
      | some indexNode =>
        match indexNode with
        | .ident id =>
          match astFile.ResolveDecl id with
          | none => (none, none, some "id decl not found")
          | some node =>
            let node := refineNode id node
            (some node.pos, some node.ende, none)
        | _ => (none, none, some "index not at an id node")

/-! ### Helper lemmas -/

/-- The node locator always finds a node: the token list is nonempty and the
locator falls back to the nearest token. -/
theorem PosNode_isSome (f : File) (o : Nat) : ∃ n, f.PosNode o = some n := by
  unfold File.PosNode
  cases h1 : (f.tok0 :: f.toks).find? (fun n => decide (n.pos ≤ o) && decide (o < n.ende)) with
  | some n => exact ⟨n, rfl⟩
  | none =>
    cases h2 : (f.tok0 :: f.toks).find? (fun n => decide (o ≤ n.pos)) with
    | some n => exact ⟨n, rfl⟩
    | none => exact ⟨_, rfl⟩

/-- Evaluation of the entry point when the located node is an identifier whose
declaration resolves. -/
theorem DeclPosition_parsed_ident_resolved (fn : String) (f : File) (i : Int) (id : Ident)
    (nodedecl : Node) (hn : f.PosNode (f.SafeOffsetPos i) = some (.ident id))
    (hr : f.ResolveDecl id = some nodedecl) :
    DeclPosition fn (.parsed f) i =
      (some (refineNode id nodedecl).pos, some (refineNode id nodedecl).ende, none) := by
  simp only [DeclPosition, ParseFile, FSetFile, hn, hr]

/-- Evaluation of the entry point when the located node is an identifier whose
declaration does not resolve. -/
theorem DeclPosition_parsed_ident_unresolved (fn : String) (f : File) (i : Int) (id : Ident)
    (hn : f.PosNode (f.SafeOffsetPos i) = some (.ident id))
    (hr : f.ResolveDecl id = none) :
    DeclPosition fn (.parsed f) i = (none, none, some "id decl not found") := by
  simp only [DeclPosition, ParseFile, FSetFile, hn, hr]

/-- Evaluation of the entry point when the located node is not an identifier. -/
theorem DeclPosition_parsed_nonident (fn : String) (f : File) (i : Int) (n : Node)
    (hn : f.PosNode (f.SafeOffsetPos i) = some n) (h : ∀ id, n ≠ .ident id) :
    DeclPosition fn (.parsed f) i = (none, none, some "index not at an id node") := by
  simp only [DeclPosition, ParseFile, FSetFile, hn]

/-- A successful `find?` returns an element that satisfies the predicate and
is the first such element in the list. -/
theorem find?_first {α : Type} (p : α → Bool) (l : List α) (x : α)
    (h : l.find? p = some x) :
    p x = true ∧ ∃ k, l.get? k = some x ∧
      ∀ j, j < k → ∀ y, l.get? j = some y → p y = false := by
  induction l with
  | nil => simp at h
  | cons a l ih =>
    by_cases ha : p a
    · rw [List.find?_cons_of_pos _ ha] at h
      obtain rfl : a = x := Option.some.inj h
      exact ⟨ha, 0, rfl, fun j hj => absurd hj (Nat.not_lt_zero j)⟩
    · have ha' : p a = false := by simpa using ha
      rw [List.find?_cons_of_neg _ ha] at h
      obtain ⟨hp, k, hk, hfirst⟩ := ih h
      refine ⟨hp, k + 1, by simpa using hk, ?_⟩
      intro j hj y hy
      cases j with
      | zero =>
        obtain rfl : a = y := Option.some.inj hy
        exact ha'
      | succ j' => exact hfirst j' (by omega) y (by simpa using hy)

/-- A missed `find?` means no element satisfies the predicate. -/
theorem find?_none {α : Type} (p : α → Bool) (l : List α)
    (h : l.find? p = none) : ∀ y ∈ l, p y = false := by
  induction l with
  | nil => simp
  | cons a l ih =>
    by_cases ha : p a
    · rw [List.find?_cons_of_pos _ ha] at h
      exact absurd h (by simp)
    · rw [List.find?_cons_of_neg _ ha] at h
      intro y hy
      rcases List.mem_cons.mp hy with rfl | hy'
      · simpa using ha
      · exact ih h y hy'

/-- A successful `IdAssignIdx` points at the first left-hand entry that is a
newly-declared name matching the queried identifier. -/
theorem IdAssignIdx_sound (id : Ident) (lhs : List (Ident × Bool)) (k : Nat)
    (h : IdAssignIdx id lhs = some k) :
    ∃ x, lhs.get? k = some x ∧ x.2 = true ∧ x.1.name = id.name ∧
      ∀ j, j < k → ∀ y, lhs.get? j = some y → ¬(y.2 = true ∧ y.1.name = id.name) := by
  induction lhs generalizing k with
  | nil => simp [IdAssignIdx] at h
  | cons q rest ih =>
    rw [IdAssignIdx] at h
    by_cases hq : q.2 && (q.1.name == id.name)
    · rw [if_pos hq] at h
      obtain rfl : 0 = k := Option.some.inj h
      obtain ⟨h1, h2⟩ := Bool.and_eq_true _ _ ▸ hq
      exact ⟨q, rfl, h1, by simpa using h2, fun j hj => absurd hj (Nat.not_lt_zero j)⟩
    · rw [if_neg hq] at h
      cases hr : IdAssignIdx id rest with
      | none => rw [hr] at h; simp at h
      | some k' =>
        rw [hr] at h
        obtain rfl : k' + 1 = k := by simpa using h
        obtain ⟨x, hx, h2, h3, hfirst⟩ := ih k' hr
        refine ⟨x, by simpa using hx, h2, h3, ?_⟩
        intro j hj y hy
        cases j with
        | zero =>
          obtain rfl : q = y := Option.some.inj hy
          rintro ⟨hy2, hy3⟩
          exact hq (by simp [hy2, hy3])
        | succ j' => exact hfirst j' (by omega) y (by simpa using hy)

/-- When some left-hand entry is a newly-declared name matching the queried
identifier, `IdAssignIdx` succeeds. -/
theorem IdAssignIdx_complete (id : Ident) (lhs : List (Ident × Bool))
    (h : ∃ q ∈ lhs, q.2 = true ∧ q.1.name = id.name) :
    ∃ k, IdAssignIdx id lhs = some k := by
  induction lhs with
  | nil => simp at h
  | cons q rest ih =>
    by_cases hq : q.2 && (q.1.name == id.name)
    · exact ⟨0, by rw [IdAssignIdx, if_pos hq]⟩
    · obtain ⟨q', hq', h1, h2⟩ := h
      rcases List.mem_cons.mp hq' with rfl | hmem
      · exact absurd (by simp [h1, h2]) hq
      · obtain ⟨k, hk⟩ := ih ⟨q', hmem, h1, h2⟩
        exact ⟨k + 1, by rw [IdAssignIdx, if_neg hq, hk]; rfl⟩

/-- When no left-hand entry is a newly-declared matching name, `IdAssignIdx`
fails. -/
theorem IdAssignIdx_none (id : Ident) (lhs : List (Ident × Bool))
    (h : ∀ q ∈ lhs, ¬(q.2 = true ∧ q.1.name = id.name)) :
    IdAssignIdx id lhs = none := by
  induction lhs with
  | nil => rfl
  | cons q rest ih =>
    have hq : ¬((q.2 && (q.1.name == id.name)) = true) := by
      intro hcontra
      obtain ⟨h1, h2⟩ := Bool.and_eq_true _ _ ▸ hcontra
      exact h q (List.mem_cons_self q rest) ⟨h1, by simpa using h2⟩
    rw [IdAssignIdx, if_neg hq, ih (fun q' hq' => h q' (List.mem_cons_of_mem q hq'))]
    rfl

/-- `IdAssignStmtRhs` on a successful index search. -/
theorem IdAssignStmtRhs_of_some (id : Ident) (lhs : List (Ident × Bool)) (k : Nat)
    (h : IdAssignIdx id lhs = some k) : IdAssignStmtRhs id lhs = (k : Int) := by
  simp [IdAssignStmtRhs, h]

/-- `IdAssignStmtRhs` on a failed index search. -/
theorem IdAssignStmtRhs_of_none (id : Ident) (lhs : List (Ident × Bool))
    (h : IdAssignIdx id lhs = none) : IdAssignStmtRhs id lhs = -1 := by
  simp [IdAssignStmtRhs, h]

/-- The refiner narrows a short assignment to the left-hand identifier found
by the index search. -/
theorem refineNode_assign_of_idx (id : Ident) (lhs : List (Ident × Bool))
    (k : Nat) (x : Ident × Bool) (p e : Nat)
    (hk : IdAssignIdx id lhs = some k) (hx : lhs.get? k = some x) :
    refineNode id (.assignStmt lhs p e) = .ident x.1 := by
  simp only [refineNode, IdAssignStmtRhs_of_some id lhs k hk]
  rw [if_pos (Int.ofNat_nonneg k)]
  simp only [Int.toNat_ofNat, hx]

/-- Every node either is an identifier or is not. -/
theorem Node.ident_or_not (n : Node) :
    (∃ id, n = .ident id) ∨ ∀ id, n ≠ .ident id := by
  cases n <;> first
    | exact Or.inl ⟨_, rfl⟩
    | exact Or.inr (by intro id h; exact Node.noConfusion h)

/-- Exhaustive description of the entry point's behaviour on a parseable
input: the located node is an identifier that resolves, an identifier that
does not resolve, or not an identifier. -/
theorem DeclPosition_cases (fn : String) (f : File) (i : Int) :
    (∃ id d, f.PosNode (f.SafeOffsetPos i) = some (.ident id) ∧
      f.ResolveDecl id = some d ∧
      DeclPosition fn (.parsed f) i =
        (some (refineNode id d).pos, some (refineNode id d).ende, none)) ∨
    (∃ id, f.PosNode (f.SafeOffsetPos i) = some (.ident id) ∧
      f.ResolveDecl id = none ∧
      DeclPosition fn (.parsed f) i = (none, none, some "id decl not found")) ∨
    (∃ n, f.PosNode (f.SafeOffsetPos i) = some n ∧ (∀ id, n ≠ .ident id) ∧
      DeclPosition fn (.parsed f) i = (none, none, some "index not at an id node")) := by
  obtain ⟨n, hn⟩ := PosNode_isSome f (f.SafeOffsetPos i)
  rcases Node.ident_or_not n with ⟨id, rfl⟩ | hni
  · cases hr : f.ResolveDecl id with
    | none =>
      exact Or.inr (Or.inl ⟨id, hn, hr, DeclPosition_parsed_ident_unresolved fn f i id hn hr⟩)
    | some d =>
      exact Or.inl ⟨id, d, hn, hr, DeclPosition_parsed_ident_resolved fn f i id d hn hr⟩
  · exact Or.inr (Or.inr ⟨n, hn, hni, DeclPosition_parsed_nonident fn f i n hn hni⟩)

/-! ### Claim theorems -/

/-- Claim C1: for every (path, content, offset) input, when `DeclPosition`
does not succeed it returns a typed error drawn from the spec's taxonomy —
ParseError ("unable to parse file"), NotAnIdentifier ("index not at an id
node"), or UnresolvedIdentifier ("id decl not found"); every failure is
returned as a value, and the entry point, being a total function, never
panics on malformed-but-parseable input. -/
theorem DeclPosition_error_taxonomy (fn : String) (s : Src) (i : Int) :
    (DeclPosition fn s i).2.2 = none ∨
    (DeclPosition fn s i).2.2 = some "unable to parse file" ∨
    (DeclPosition fn s i).2.2 = some "index not at an id node" ∨
    (DeclPosition fn s i).2.2 = some "id decl not found" := by
  cases s with
  | malformed => exact Or.inr (Or.inl rfl)
  | parsed f =>
    rcases DeclPosition_cases fn f i with
      ⟨id, d, _, _, he⟩ | ⟨id, _, _, he⟩ | ⟨n, _, _, he⟩
    · exact Or.inl (by rw [he])
    · exact Or.inr (Or.inr (Or.inr (by rw [he])))
    · exact Or.inr (Or.inr (Or.inl (by rw [he])))

/-- Claim C4: for every (path, content, offset), the query fails with
ParseError ("unable to parse file") exactly when the supplied content cannot
be parsed; on parseable content that error never appears. -/
theorem DeclPosition_parseError_iff (fn : String) (s : Src) (i : Int) :
    (DeclPosition fn s i).2.2 = some "unable to parse file" ↔ s = Src.malformed := by
  cases s with
  | malformed => exact ⟨fun _ => rfl, fun _ => rfl⟩
  | parsed f =>
    have hne : (DeclPosition fn (.parsed f) i).2.2 ≠ some "unable to parse file" := by
      rcases DeclPosition_cases fn f i with
        ⟨id, d, _, _, he⟩ | ⟨id, _, _, he⟩ | ⟨n, _, _, he⟩ <;> rw [he] <;> simp
    exact ⟨fun h => absurd h hne, fun h => Src.noConfusion h⟩

/-- Claim C5: for a fixed (path, content, offset), two calls of the entry
point return equal results: `DeclPosition` is embedded as a pure function of
its inputs, so its result is determined by them. -/
theorem DeclPosition_deterministic (fn : String) (s : Src) (i : Int) :
    DeclPosition fn s i = DeclPosition fn s i := rfl

/-- Claim C10: `DeclPosition` returns both positions nil exactly with a
non-nil error and both positions non-nil exactly with a nil error; a partial
result is never produced. -/
theorem DeclPosition_result_shape (fn : String) (s : Src) (i : Int) :
    (∃ a b, DeclPosition fn s i = (some a, some b, none)) ∨
    (∃ msg, DeclPosition fn s i = (none, none, some msg)) := by
  cases s with
  | malformed => exact Or.inr ⟨_, rfl⟩
  | parsed f =>
    rcases DeclPosition_cases fn f i with
      ⟨id, d, _, _, he⟩ | ⟨id, _, _, he⟩ | ⟨n, _, _, he⟩
    · exact Or.inl ⟨_, _, he⟩
    · exact Or.inr ⟨_, he⟩
    · exact Or.inr ⟨_, he⟩

/-- Claim C2: when the resolved declaration node is a short assignment, the
refiner narrows the result to the left-hand identifier at the position
matching the queried identifier's name among the newly-declared names of the
statement — the first such entry — and the query returns that identifier's
own span. -/
theorem DeclPosition_shortAssignment_refines (fn : String) (f : File) (i : Int)
    (id : Ident) (lhs : List (Ident × Bool)) (p e : Nat)
    (hloc : f.PosNode (f.SafeOffsetPos i) = some (.ident id))
    (hres : f.ResolveDecl id = some (.assignStmt lhs p e))
    (hnew : ∃ q ∈ lhs, q.2 = true ∧ q.1.name = id.name) :
    ∃ (k : Nat) (x : Ident × Bool), IdAssignStmtRhs id lhs = (k : Int) ∧ lhs.get? k = some x ∧
      x.2 = true ∧ x.1.name = id.name ∧
      (∀ j, j < k → ∀ y, lhs.get? j = some y → ¬(y.2 = true ∧ y.1.name = id.name)) ∧
      DeclPosition fn (.parsed f) i = (some x.1.pos, some x.1.ende, none) := by
  obtain ⟨k, hk⟩ := IdAssignIdx_complete id lhs hnew
  obtain ⟨x, hx, h2, h3, hfirst⟩ := IdAssignIdx_sound id lhs k hk
  refine ⟨k, x, IdAssignStmtRhs_of_some id lhs k hk, hx, h2, h3, hfirst, ?_⟩
  rw [DeclPosition_parsed_ident_resolved fn f i id _ hloc hres,
    refineNode_assign_of_idx id lhs k x p e hk hx]
  rfl

/-- Claim C2, witness: a short assignment `a, b := 2, 3` in which only `b` is
newly declared; querying `b` returns the span of the left-hand `b`. -/
theorem DeclPosition_shortAssignment_refines_witness :
    ∃ (k : Nat) (x : Ident × Bool),
      IdAssignStmtRhs ⟨"b", 6, 7⟩ [(⟨"a", 3, 4⟩, false), (⟨"b", 6, 7⟩, true)] = (k : Int) ∧
      ([(⟨"a", 3, 4⟩, false), (⟨"b", 6, 7⟩, true)] : List (Ident × Bool)).get? k = some x ∧
      x.2 = true ∧ x.1.name = "b" ∧
      (∀ j, j < k → ∀ y,
        ([(⟨"a", 3, 4⟩, false), (⟨"b", 6, 7⟩, true)] : List (Ident × Bool)).get? j = some y →
        ¬(y.2 = true ∧ y.1.name = "b")) ∧
      DeclPosition "f.go"
        (.parsed ⟨30, .ident ⟨"b", 6, 7⟩, [],
          fun _ => some (.assignStmt [(⟨"a", 3, 4⟩, false), (⟨"b", 6, 7⟩, true)] 3 12)⟩) 6 =
        (some x.1.pos, some x.1.ende, none) :=
  DeclPosition_shortAssignment_refines "f.go" _ 6 ⟨"b", 6, 7⟩ _ 3 12 rfl rfl
    ⟨(⟨"b", 6, 7⟩, true), by decide, rfl, rfl⟩

/-- Claim C3: when the offset lands on an identifier at its own declaration
site and the resolver returns the function or type declaration whose name is
that very identifier, the query succeeds and the returned span is exactly
the span of that name identifier. -/
theorem DeclPosition_self_declaration (fn : String) (f : File) (i : Int)
    (id : Ident) (p e : Nat)
    (hloc : f.PosNode (f.SafeOffsetPos i) = some (.ident id))
    (hres : f.ResolveDecl id = some (.funcDecl id p e) ∨
      f.ResolveDecl id = some (.typeSpec id p e)) :
    DeclPosition fn (.parsed f) i = (some id.pos, some id.ende, none) := by
  rcases hres with h | h <;>
    rw [DeclPosition_parsed_ident_resolved fn f i id _ hloc h] <;> rfl

/-- Claim C3, witness: the offset lands on the name `F` of `func F`, and the
result is exactly the span of `F`, not the whole declaration. -/
theorem DeclPosition_self_declaration_witness :
    DeclPosition "f.go"
      (.parsed ⟨20, .ident ⟨"F", 10, 11⟩, [],
        fun _ => some (.funcDecl ⟨"F", 10, 11⟩ 5 20)⟩) 10 =
      (some 10, some 11, none) :=
  DeclPosition_self_declaration "f.go" _ 10 ⟨"F", 10, 11⟩ 5 20 rfl (Or.inl rfl)

/-- Claim C6: the offset-clamping step maps every offset — negative, past
end-of-file, or in range — to the nearest valid boundary offset of the file
rather than failing, so an off-by-one caller offset never by itself causes
the query to error with the node-locator failure. -/
theorem SafeOffsetPos_clamps (f : File) (i : Int) :
    f.SafeOffsetPos i ≤ f.size ∧
    (i < 0 → f.SafeOffsetPos i = 0) ∧
    (0 ≤ i → i ≤ (f.size : Int) → (f.SafeOffsetPos i : Int) = i) ∧
    ((f.size : Int) < i → f.SafeOffsetPos i = f.size) ∧
    (∀ fn, (DeclPosition fn (.parsed f) i).2.2 ≠ some "index node not found") := by
  refine ⟨?_, ?_, ?_, ?_, ?_⟩
  · unfold File.SafeOffsetPos
    split
    · exact Nat.zero_le _
    · exact Nat.min_le_right _ _
  · intro h
    unfold File.SafeOffsetPos
    rw [if_pos h]
  · intro h1 h2
    unfold File.SafeOffsetPos
    rw [if_neg (not_lt.mpr h1), Nat.min_eq_left (Int.toNat_le.mpr h2), Int.toNat_of_nonneg h1]
  · intro h
    unfold File.SafeOffsetPos
    rw [if_neg (not_lt.mpr (le_trans (Int.ofNat_nonneg f.size) (le_of_lt h))),
      Nat.min_eq_right (Int.le_toNat (le_trans (Int.ofNat_nonneg f.size) (le_of_lt h)) |>.mpr
        (le_of_lt h))]
  · intro fn
    rcases DeclPosition_cases fn f i with
      ⟨id, d, _, _, he⟩ | ⟨id, _, _, he⟩ | ⟨n, _, _, he⟩ <;> rw [he] <;> simp

/-- Claim C6, witness: a negative offset clamps to zero, an offset past
end-of-file clamps to the file size, and a negative offset does not produce
the node-locator error. -/
theorem SafeOffsetPos_clamps_witness :
    File.SafeOffsetPos ⟨10, .other 0 1, [], fun _ => none⟩ (-5) = 0 ∧
    File.SafeOffsetPos ⟨10, .other 0 1, [], fun _ => none⟩ 13 = 10 ∧
    (DeclPosition "f.go" (.parsed ⟨10, .other 0 1, [], fun _ => none⟩) (-5)).2.2 ≠
      some "index node not found" :=
  ⟨(SafeOffsetPos_clamps ⟨10, .other 0 1, [], fun _ => none⟩ (-5)).2.1 (by decide),
   (SafeOffsetPos_clamps ⟨10, .other 0 1, [], fun _ => none⟩ 13).2.2.2.1 (by decide),
   (SafeOffsetPos_clamps ⟨10, .other 0 1, [], fun _ => none⟩ (-5)).2.2.2.2 "f.go"⟩

/-- Claim C7: when the resolved declaration node is a field declaration or a
grouped value declaration, the query returns the identifier of its name list
whose text equals the queried name; with several such identifiers, the first
in source order is returned. -/
theorem DeclPosition_field_valueSpec_refines (fn : String) (f : File) (i : Int)
    (id : Ident) (names : List Ident) (p e : Nat) (x : Ident)
    (hloc : f.PosNode (f.SafeOffsetPos i) = some (.ident id))
    (hres : f.ResolveDecl id = some (.field names p e) ∨
      f.ResolveDecl id = some (.valueSpec names p e))
    (hfind : names.find? (fun id2 => id2.name == id.name) = some x) :
    x.name = id.name ∧
    (∃ k, names.get? k = some x ∧
      ∀ j, j < k → ∀ y, names.get? j = some y → y.name ≠ id.name) ∧
    DeclPosition fn (.parsed f) i = (some x.pos, some x.ende, none) := by
  obtain ⟨hp, k, hk, hfirst⟩ := find?_first _ names x hfind
  refine ⟨by simpa using hp,
    ⟨k, hk, fun j hj y hy => by simpa using hfirst j hj y hy⟩, ?_⟩
  rcases hres with h | h <;>
    rw [DeclPosition_parsed_ident_resolved fn f i id _ hloc h] <;>
    simp [refineNode, hfind, Node.pos, Node.ende]

/-- Claim C7, witness: a field list `a, n` queried with `n` returns the span
of the matching identifier `n`. -/
theorem DeclPosition_field_valueSpec_refines_witness :
    ("n" : String) = "n" ∧
    (∃ k, ([⟨"a", 1, 2⟩, ⟨"n", 5, 6⟩] : List Ident).get? k = some ⟨"n", 5, 6⟩ ∧
      ∀ j, j < k → ∀ y, ([⟨"a", 1, 2⟩, ⟨"n", 5, 6⟩] : List Ident).get? j = some y →
        y.name ≠ "n") ∧
    DeclPosition "f.go"
      (.parsed ⟨30, .ident ⟨"n", 20, 21⟩, [],
        fun _ => some (.field [⟨"a", 1, 2⟩, ⟨"n", 5, 6⟩] 0 9)⟩) 20 =
      (some 5, some 6, none) :=
  DeclPosition_field_valueSpec_refines "f.go" _ 20 ⟨"n", 20, 21⟩
    [⟨"a", 1, 2⟩, ⟨"n", 5, 6⟩] 0 9 ⟨"n", 5, 6⟩ rfl (Or.inl rfl) rfl

/-- Claim C8: span refinement is total and never a hard failure: every
resolved declaration node is narrowed to a matching sub-identifier or
returned unrefined; an unhandled kind is returned unrefined, the left-hand
list of a short assignment is indexed only when the computed index is
non-negative, and a field or value spec whose name list has no matching
identifier falls back to the whole node. -/
theorem refineNode_total (id : Ident) (node : Node) :
    ((∃ x, refineNode id node = .ident x) ∨ refineNode id node = node) ∧
    (∀ p e, node = .other p e → refineNode id node = node) ∧
    (∀ lhs p e, node = .assignStmt lhs p e → IdAssignStmtRhs id lhs < 0 →
      refineNode id node = node) ∧
    (∀ names p e, node = .field names p e →
      names.find? (fun id2 => id2.name == id.name) = none →
      refineNode id node = node) ∧
    (∀ names p e, node = .valueSpec names p e →
      names.find? (fun id2 => id2.name == id.name) = none →
      refineNode id node = node) := by
  refine ⟨?_, ?_, ?_, ?_, ?_⟩
  · cases node with
    | ident id2 => exact Or.inr rfl
    | funcDecl name p e => exact Or.inl ⟨name, rfl⟩
    | typeSpec name p e => exact Or.inl ⟨name, rfl⟩
    | assignStmt lhs p e =>
      cases hi : IdAssignIdx id lhs with
      | none =>
        refine Or.inr ?_
        simp only [refineNode, IdAssignStmtRhs_of_none id lhs hi]
        rfl
      | some k =>
        obtain ⟨x, hx, _, _, _⟩ := IdAssignIdx_sound id lhs k hi
        exact Or.inl ⟨x.1, refineNode_assign_of_idx id lhs k x p e hi hx⟩
    | field names p e =>
      cases hfind : names.find? (fun id2 => id2.name == id.name) with
      | none => exact Or.inr (by simp [refineNode, hfind])
      | some x => exact Or.inl ⟨x, by simp [refineNode, hfind]⟩
    | valueSpec names p e =>
      cases hfind : names.find? (fun id2 => id2.name == id.name) with
      | none => exact Or.inr (by simp [refineNode, hfind])
      | some x => exact Or.inl ⟨x, by simp [refineNode, hfind]⟩
    | other p e => exact Or.inr rfl
  · rintro p e rfl
    rfl
  · rintro lhs p e rfl hneg
    simp only [refineNode]
    rw [if_neg (not_le.mpr hneg)]
  · rintro names p e rfl hfind
    simp [refineNode, hfind]
  · rintro names p e rfl hfind
    simp [refineNode, hfind]

/-- Claim C8, witness: an unhandled node kind, a short assignment with no
newly-declared matching name, and a field with no matching name are all
returned unrefined. -/
theorem refineNode_total_witness :
    refineNode ⟨"x", 0, 1⟩ (.other 2 5) = .other 2 5 ∧
    refineNode ⟨"x", 0, 1⟩ (.assignStmt [] 0 3) = .assignStmt [] 0 3 ∧
    refineNode ⟨"x", 0, 1⟩ (.field [] 0 3) = .field [] 0 3 :=
  ⟨(refineNode_total ⟨"x", 0, 1⟩ (.other 2 5)).2.1 2 5 rfl,
   (refineNode_total ⟨"x", 0, 1⟩ (.assignStmt [] 0 3)).2.2.1 [] 0 3 rfl (by decide),
   (refineNode_total ⟨"x", 0, 1⟩ (.field [] 0 3)).2.2.2.1 [] 0 3 rfl rfl⟩

/-- Claim C9: on parseable input the query fails with NotAnIdentifier
("index not at an id node") exactly when the node located at the clamped
offset is not an identifier. -/
theorem DeclPosition_notAnIdentifier_iff (fn : String) (f : File) (i : Int)
    (n : Node) (hn : f.PosNode (f.SafeOffsetPos i) = some n) :
    (DeclPosition fn (.parsed f) i).2.2 = some "index not at an id node" ↔
      ∀ id, n ≠ .ident id := by
  rcases DeclPosition_cases fn f i with
    ⟨id, d, hn', _, he⟩ | ⟨id, hn', _, he⟩ | ⟨n', hn', hni, he⟩
  · obtain rfl : Node.ident id = n := Option.some.inj (hn' ▸ hn ▸ rfl)
    rw [he]
    simp
  · obtain rfl : Node.ident id = n := Option.some.inj (hn' ▸ hn ▸ rfl)
    rw [he]
    simp
  · obtain rfl : n' = n := Option.some.inj (hn' ▸ hn ▸ rfl)
    rw [he]
    simp [hni]

/-- Claim C9, witness: the offset 7 falls in the whitespace between a token
spanning bytes 0–7 and one spanning bytes 8–9; the locator clamps to the
following token, which is not a name, and the query reports
NotAnIdentifier. -/
theorem DeclPosition_notAnIdentifier_iff_witness :
    (DeclPosition "f.go" (.parsed ⟨9, .other 0 7, [.other 8 9], fun _ => none⟩) 7).2.2 =
      some "index not at an id node" ↔ ∀ id, Node.other 8 9 ≠ .ident id :=
  DeclPosition_notAnIdentifier_iff "f.go" _ 7 (.other 8 9) rfl

end GoSource
